import Mathlib

/-!
Verification of the scheduling core of `email-flow-automator`.

The definitions below are a shallow embedding of the scheduling routes in
`src/server/server.js`:

* the deferred-mode loop of `POST /api/schedule-sequence` (lines 995-1093),
* the immediate-mode loop of the same route (lines 901-992),
* the `sendTime` computation of `POST /api/schedule-email` /
  `scheduleEmail` (lines 798-805, 1111-1118),
* the job-health monitor sweep registered by `setInterval` (lines 1166-1202).

Modelling conventions:

* A JavaScript `Date` is its epoch-milliseconds value, a `Nat`.  The model
  works in a fixed (UTC-like) timezone with no DST, so `getDay()` is
  `(t / msPerDay + 4) % 7` (day 0 of the epoch was a Thursday) and
  `setDate(getDate() + 1)` adds exactly `msPerDay`.
* `Math.random()` calls are fed from a stream `rng : Nat → Nat` of draws;
  `Math.floor(Math.random() * k)` for `k ≥ 1` is modelled as `rng i % k`,
  which has exactly the range `[0, k)` of the original.  (The loop draws
  with `k = toHour - fromHour + 1`; the model, using `Nat` subtraction,
  covers the configurations with `fromHour ≤ toHour`.)
* `new Date()` calls are fed from a stream `clock : Nat → Nat` of wall-clock
  readings, consumed one per call; a real clock is monotone, which theorems
  assume explicitly where needed.
* A JavaScript value that may be `undefined` is an `Option`; reading a
  property of `undefined` (a `TypeError` reaching the route's `catch`) is
  an explicit error flag in the result.
* `agenda.schedule` persists a job; persistence is the `jobs` list threaded
  through the state.  Store errors and the reconnect-retry paths are not
  modelled (they are failure-injection, not algorithm).
-/

/-- Milliseconds per day. -/
def msPerDay : Nat := 86400000

/-- Milliseconds per hour. -/
def msPerHour : Nat := 3600000

/-- Milliseconds per minute. -/
def msPerMinute : Nat := 60000

/-- Calendar-day index of an epoch-milliseconds timestamp. -/
def calDay (t : Nat) : Nat := t / msPerDay

/-- Midnight of the day containing `t`. -/
def dayStart (t : Nat) : Nat := calDay t * msPerDay

/-- `Date.prototype.getDay()`: day of week, Sunday = 0 … Saturday = 6.
Epoch day 0 (1970-01-01) was a Thursday (= 4). -/
def getDay (t : Nat) : Nat := (calDay t + 4) % 7

/-- `d.setHours(h, m, 0, 0)` on a date `t`: same calendar day, hour `h`,
minute `m`, seconds and milliseconds zero.  An hour `h ≥ 24` rolls over
into the following day, as in JavaScript. -/
def setHM (t h m : Nat) : Nat := dayStart t + h * msPerHour + m * msPerMinute

/-- Hour-of-day component of a timestamp. -/
def hourOfDay (t : Nat) : Nat := t % msPerDay / msPerHour

/-- Minute component of a timestamp. -/
def minuteOfHour (t : Nat) : Nat := t % msPerHour / msPerMinute

/-- `item.data` payload of a sequence node: `{recipient, subject, body}`,
each possibly `undefined`. -/
structure ItemData where
  recipient : Option String
  subject : Option String
  body : Option String
  deriving Repr, DecidableEq

/-- One flattened sequence node as received by `/api/schedule-sequence`.
`data` itself may be `undefined`. -/
structure SequenceItem where
  id : String
  type : String
  data : Option ItemData
  deriving Repr, DecidableEq

/-- JavaScript falsiness of a possibly-undefined string
(`!x` is true for `undefined` and for `""`). -/
def jsFalsy : Option String → Bool
  | none => true
  | some s => s == ""

/-- `x || dflt` for a possibly-undefined string `x`. -/
def jsOr (o : Option String) (dflt : String) : String :=
  match o with
  | none => dflt
  | some s => if s == "" then dflt else s

/-- A job persisted by `agenda.schedule(sendTime, 'send email', data)`:
name, `data` fields, and the target run time. -/
structure Job where
  name : String
  /-- the `to` field of the job data (`to` is a Lean keyword). -/
  toAddr : Option String
  subject : Option String
  body : Option String
  userId : String
  runAt : Nat
  deriving Repr, DecidableEq

/-- One element of the `scheduledEmails` response array. -/
structure ScheduledEntry where
  email : Option String
  subject : Option String
  scheduledFor : Nat
  deriving Repr, DecidableEq

/-- The scheduling options after the route merges caller options over the
defaults (`startDate` already converted to a timestamp). -/
structure SchedulingOptions where
  startDate : Nat
  fromTime : String
  toTime : String
  days : List String
  deriving Repr, DecidableEq

/-- `day.toLowerCase()`: character-wise lowercasing (the day names in
play are ASCII). -/
def jsToLower (s : String) : String := ⟨s.data.map Char.toLower⟩

/-- `options.fromTime.split(':').map(Number)` destructured to its first
component: the digits before the first `:` read as a decimal number
(Number coercion modelled for the decimal-digit strings of the `HH:MM`
shape the route documents). -/
def parseHour (s : String) : Nat :=
  (s.data.takeWhile (fun c => c ≠ ':')).foldl (fun acc c => acc * 10 + (c.toNat - 48)) 0

/-- The route's `dayMap`: weekday name → day number (Sunday = 0).  An
unknown name indexes the map to `undefined`. -/
def dayMap : String → Option Nat
  | "sunday" => some 0
  | "monday" => some 1
  | "tuesday" => some 2
  | "wednesday" => some 3
  | "thursday" => some 4
  | "friday" => some 5
  | "saturday" => some 6
  | _ => none

/-- The deferred-mode configuration derived from the options:
`scheduleDays = options.days.map(day => dayMap[day.toLowerCase()])` and the
parsed hour bounds. -/
structure DefCfg where
  scheduleDays : List (Option Nat)
  fromHour : Nat
  toHour : Nat
  userId : String
  deriving Repr, DecidableEq

/-- Build the deferred-mode configuration from the merged options. -/
def mkCfg (opts : SchedulingOptions) (userId : String) : DefCfg :=
  { scheduleDays := opts.days.map (fun d => dayMap (jsToLower d))
    fromHour := parseHour opts.fromTime
    toHour := parseHour opts.toTime
    userId := userId }

/-- Mutable state of the deferred-mode loop: the day cursor
`currentDate`, the `scheduledEmails` accumulator, the jobs persisted so
far, and the positions in the random and clock streams. -/
structure DefState where
  currentDate : Nat
  scheduled : List ScheduledEntry
  jobs : List Job
  rix : Nat
  cix : Nat
  deriving Repr, DecidableEq

/-- Initial deferred-mode state: cursor at `startDate`, nothing scheduled. -/
def initDefState (startDate : Nat) : DefState :=
  { currentDate := startDate, scheduled := [], jobs := [], rix := 0, cix := 0 }

/-- Result of (part of) the deferred loop: the state reached, and whether a
`TypeError` (reading `.recipient` of `undefined` data) was thrown. -/
structure DefRun where
  st : DefState
  err : Bool
  deriving Repr, DecidableEq

/-- The hour drawn at state `st`:
`Math.floor(Math.random() * (toHour - fromHour + 1)) + fromHour`. -/
def drawnHour (cfg : DefCfg) (rng : Nat → Nat) (st : DefState) : Nat :=
  (rng st.rix) % (cfg.toHour - cfg.fromHour + 1) + cfg.fromHour

/-- The minute drawn at state `st`: `Math.floor(Math.random() * 60)`. -/
def drawnMinute (rng : Nat → Nat) (st : DefState) : Nat :=
  (rng (st.rix + 1)) % 60

/-- The `while (!foundValidDay && daysChecked < 14)` search of the deferred
loop, for one `coldEmail` item with payload `data`; the fuel argument is
`14 - daysChecked`.  On a valid day it draws hour and minute, builds
`sendTime`, and only if `sendTime > new Date()` reads `data.recipient`
(the `TypeError` when `data` is `undefined`), persists the job, records the
entry, and advances the cursor one day; a `sendTime` not in the future
leaves the cursor where it is.  On an invalid day it advances the cursor
and keeps searching. -/
def findDayLoop (cfg : DefCfg) (rng clock : Nat → Nat) (data : Option ItemData)
    (st : DefState) : Nat → DefRun
  | 0 => ⟨st, false⟩
  | fuel + 1 =>
    if some (getDay st.currentDate) ∈ cfg.scheduleDays then
      let sendTime := setHM st.currentDate (drawnHour cfg rng st) (drawnMinute rng st)
      if clock st.cix < sendTime then
        match data with
        | none => ⟨{ st with rix := st.rix + 2, cix := st.cix + 1 }, true⟩
        | some d =>
          ⟨{ currentDate := st.currentDate + msPerDay
             scheduled := st.scheduled ++ [⟨d.recipient, d.subject, sendTime⟩]
             jobs := st.jobs ++ [⟨"send email", d.recipient, d.subject, d.body, cfg.userId, sendTime⟩]
             rix := st.rix + 2
             cix := st.cix + 1 }, false⟩
      else
        ⟨{ st with rix := st.rix + 2, cix := st.cix + 1 }, false⟩
    else
      findDayLoop cfg rng clock data { st with currentDate := st.currentDate + msPerDay } fuel

/-- The deferred-mode `for (const item of sequence)` loop: `coldEmail`
items run the day search (aborting the whole loop if it throws), other
items are ignored. -/
def processSeq (cfg : DefCfg) (rng clock : Nat → Nat) :
    List SequenceItem → DefState → DefRun
  | [], st => ⟨st, false⟩
  | item :: rest, st =>
    if item.type == "coldEmail" then
      let r := findDayLoop cfg rng clock item.data st 14
      if r.err then r else processSeq cfg rng clock rest r.st
    else
      processSeq cfg rng clock rest st

/-- A response of the `/api/schedule-sequence` route. -/
inductive SeqResponse where
  /-- 200 with the `scheduledEmails` array. -/
  | ok (scheduledEmails : List ScheduledEntry)
  /-- 400 with an error message. -/
  | badRequest (msg : String)
  /-- 500 with an error message, from the route-level `catch`. -/
  | serverError (msg : String)
  deriving Repr, DecidableEq

/-- The whole deferred-mode loop of the route, from the caller's merged
options: normalize the configuration, start the cursor at `startDate`, and
process the sequence. -/
def runDeferred (opts : SchedulingOptions) (userId : String)
    (rng clock : Nat → Nat) (sequence : List SequenceItem) : DefRun :=
  processSeq (mkCfg opts userId) rng clock sequence (initDefState opts.startDate)

/-- The deferred-mode branch of the route: run the loop; an uncaught throw
reaches the route's `catch` and yields the 500 response, with the jobs
persisted before the throw left in the store. -/
def scheduleSequenceDeferred (opts : SchedulingOptions) (userId : String)
    (rng clock : Nat → Nat) (sequence : List SequenceItem) :
    SeqResponse × List Job :=
  let r := runDeferred opts userId rng clock sequence
  if r.err then (.serverError "Failed to schedule sequence", r.st.jobs)
  else (.ok r.st.scheduled, r.st.jobs)

/-- Mutable state of the immediate-mode (`sendNow = true`) loop. -/
structure ImmState where
  hasValid : Bool
  hasMissing : Bool
  scheduled : List ScheduledEntry
  jobs : List Job
  cix : Nat
  deriving Repr, DecidableEq

/-- Initial immediate-mode state. -/
def initImmState : ImmState :=
  { hasValid := false, hasMissing := false, scheduled := [], jobs := [], cix := 0 }

/-- The immediate-mode `for (const item of sequence)` loop: a `coldEmail`
item with a falsy `item.data?.recipient` only sets `hasMissingRecipients`;
otherwise `sendTime = new Date()` plus one minute, the job is persisted,
and the entry (with the `|| 'No Subject'` / `|| ''` defaults of the route)
is recorded. -/
def processImmediate (clock : Nat → Nat) (userId : String) :
    List SequenceItem → ImmState → ImmState
  | [], st => st
  | item :: rest, st =>
    if item.type == "coldEmail" then
      match item.data with
      | none => processImmediate clock userId rest { st with hasMissing := true }
      | some d =>
        if jsFalsy d.recipient then
          processImmediate clock userId rest { st with hasMissing := true }
        else
          let sendTime := clock st.cix + msPerMinute
          processImmediate clock userId rest
            { hasValid := true
              hasMissing := st.hasMissing
              scheduled := st.scheduled ++
                [⟨d.recipient, some (jsOr d.subject "No Subject"), sendTime⟩]
              jobs := st.jobs ++
                [⟨"send email", d.recipient, some (jsOr d.subject "No Subject"),
                  some (jsOr d.body ""), userId, sendTime⟩]
              cix := st.cix + 1 }
    else
      processImmediate clock userId rest st

/-- 400 message when every `coldEmail` item was skipped for a missing
recipient. -/
def msgMissingRecipients : String :=
  "None of your email nodes have recipient addresses. Please add recipient email addresses to your nodes."

/-- 400 message when the sequence holds no valid email node at all. -/
def msgNoValidNodes : String :=
  "No valid email nodes found in the sequence."

/-- The immediate-mode branch of the route: run the loop; with no valid
email found respond 400, with the message chosen by
`hasMissingRecipients`; otherwise respond 200 with the entries. -/
def scheduleSequenceImmediate (userId : String) (clock : Nat → Nat)
    (sequence : List SequenceItem) : SeqResponse × List Job :=
  let st := processImmediate clock userId sequence initImmState
  if st.hasValid then (.ok st.scheduled, st.jobs)
  else
    (.badRequest (if st.hasMissing then msgMissingRecipients else msgNoValidNodes),
     st.jobs)

/-- The `POST /api/schedule-sequence` route after initialization checks:
dispatch on `sendNow`. -/
def scheduleSequenceRoute (sendNow : Bool) (opts : SchedulingOptions)
    (userId : String) (rng clock : Nat → Nat) (sequence : List SequenceItem) :
    SeqResponse × List Job :=
  if sendNow then scheduleSequenceImmediate userId clock sequence
  else scheduleSequenceDeferred opts userId rng clock sequence

/-- The `sendTime` computation shared by `POST /api/schedule-email` and the
`scheduleEmail` helper: start at `new Date()` and add the delay in the
given unit; any other unit (including a missing one) adds nothing. -/
def computeSendTime (now : Nat) (delay : Nat) (unit : Option String) : Nat :=
  if unit == some "minutes" then now + delay * msPerMinute
  else if unit == some "hours" then now + delay * msPerHour
  else if unit == some "days" then now + delay * msPerDay
  else now

/-- Request body of `POST /api/schedule-email`. -/
structure SingleRequest where
  toAddr : Option String
  subject : Option String
  body : Option String
  delay : Nat
  unit : Option String
  deriving Repr, DecidableEq

/-- A response of the `POST /api/schedule-email` route. -/
inductive SingleResponse where
  /-- 200: `Email scheduled successfully`, with `scheduledFor` and the
  persisted job. -/
  | ok (scheduledFor : Nat) (job : Job)
  /-- 500: email credentials not configured. -/
  | configMissing
  /-- 503: scheduling service not available. -/
  | unavailable
  deriving Repr, DecidableEq

/-- The `POST /api/schedule-email` route: credential and scheduler checks,
then compute `sendTime`, persist the job, and report success with
`scheduledFor = sendTime`.  (The store-verification and reconnect branches
are failure injection and are not modelled.) -/
def scheduleEmailRoute (emailConfigured schedulerAvailable : Bool) (now : Nat)
    (req : SingleRequest) (userId : String) : SingleResponse :=
  if !emailConfigured then .configMissing
  else if !schedulerAvailable then .unavailable
  else
    let sendTime := computeSendTime now req.delay req.unit
    .ok sendTime ⟨"send email", req.toAddr, req.subject, req.body, userId, sendTime⟩

/-- A job document as the health monitor sees it in the `emailJobs`
collection. -/
structure StoredJob where
  name : String
  toAddr : Option String
  userId : String
  nextRunAt : Option Nat
  lockedAt : Option Nat
  deriving Repr, DecidableEq

/-- Effect of `updateMany({lockedAt: {$lt: fiveMinutesAgo}}, {$set:
{lockedAt: null}})` on one document, where `fiveMinutesAgo = now - 5*60*1000`
(`$lt` against a date matches only date-valued `lockedAt`, never `null`). -/
def sweepJob (now : Nat) (j : StoredJob) : StoredJob :=
  match j.lockedAt with
  | some t => if t < now - 5 * 60 * 1000 then { j with lockedAt := none } else j
  | none => j

/-- One execution of the job-health monitor sweep: the stale-lock
`updateMany` runs only inside `if (lockedJobs > 0)`, where `lockedJobs`
counts documents with non-null `lockedAt`.  (The pending-jobs count is a
diagnostic log only.) -/
def monitorSweep (now : Nat) (jobs : List StoredJob) : List StoredJob :=
  if 0 < jobs.countP (fun j => j.lockedAt.isSome) then jobs.map (sweepJob now)
  else jobs

/-- Cursor invariant of the deferred loop: every recorded entry lies on a
calendar day strictly before the cursor's day, and the recorded entries
have strictly increasing calendar days. -/
def DatesOK (st : DefState) : Prop :=
  (∀ e ∈ st.scheduled, calDay e.scheduledFor < calDay st.currentDate) ∧
  List.Chain' (fun a b => calDay a.scheduledFor < calDay b.scheduledFor) st.scheduled

/-- A sequence item the immediate mode accepts: a `coldEmail` whose
`item.data?.recipient` is truthy. -/
def eligibleItem (i : SequenceItem) : Bool :=
  i.type == "coldEmail" && !(jsFalsy (i.data.bind ItemData.recipient))

/-- A sequence item the immediate mode records as a missing-recipient
skip: a `coldEmail` whose `item.data?.recipient` is falsy. -/
def missedItem (i : SequenceItem) : Bool :=
  i.type == "coldEmail" && jsFalsy (i.data.bind ItemData.recipient)

/-- Per-job effect of one monitor sweep as the claim states it: a job
whose lock timestamp is older than five minutes at sweep time gets
`lockedAt` cleared, every other job is returned unchanged.  (Stated from
the claim's words, to be compared with `monitorSweep`.) -/
def unlockSpecClaim (now : Nat) (j : StoredJob) : StoredJob :=
  match j.lockedAt with
  | some t => if t + 5 * 60 * 1000 < now then { j with lockedAt := none } else j
  | none => j

/-! ### Arithmetic facts about the time model -/

theorem calDay_setHM (t h m : Nat) (hh : h ≤ 23) (hm : m ≤ 59) :
    calDay (setHM t h m) = calDay t := by
  simp only [calDay, setHM, dayStart, msPerDay, msPerHour, msPerMinute]
  omega

theorem hourOfDay_setHM (t h m : Nat) (hh : h ≤ 23) (hm : m ≤ 59) :
    hourOfDay (setHM t h m) = h := by
  simp only [hourOfDay, setHM, dayStart, calDay, msPerDay, msPerHour, msPerMinute]
  omega

theorem minuteOfHour_setHM (t h m : Nat) (_hh : h ≤ 23) (hm : m ≤ 59) :
    minuteOfHour (setHM t h m) = m := by
  simp only [minuteOfHour, setHM, dayStart, calDay, msPerDay, msPerHour, msPerMinute]
  omega

theorem getDay_setHM (t h m : Nat) (hh : h ≤ 23) (hm : m ≤ 59) :
    getDay (setHM t h m) = getDay t := by
  simp only [getDay, calDay_setHM t h m hh hm]

theorem calDay_add_day (t : Nat) : calDay (t + msPerDay) = calDay t + 1 := by
  simp only [calDay, msPerDay]
  omega

theorem drawnHour_le (cfg : DefCfg) (rng : Nat → Nat) (st : DefState)
    (hft : cfg.fromHour ≤ cfg.toHour) :
    cfg.fromHour ≤ drawnHour cfg rng st ∧ drawnHour cfg rng st ≤ cfg.toHour := by
  unfold drawnHour
  have h := Nat.mod_lt (rng st.rix) (y := cfg.toHour - cfg.fromHour + 1) (by omega)
  omega

theorem drawnMinute_le (rng : Nat → Nat) (st : DefState) :
    drawnMinute rng st ≤ 59 := by
  unfold drawnMinute
  have h := Nat.mod_lt (rng (st.rix + 1)) (y := 60) (by omega)
  omega

/-! ### Shape of the deferred loop -/

/-- One step of the day search on a valid day whose drawn time is **not**
in the future: nothing is scheduled and the cursor stays on the same day. -/
theorem findDayLoop_valid_past (cfg : DefCfg) (rng clock : Nat → Nat)
    (data : Option ItemData) (st : DefState) (fuel : Nat)
    (hday : some (getDay st.currentDate) ∈ cfg.scheduleDays)
    (hpast : ¬ clock st.cix < setHM st.currentDate (drawnHour cfg rng st) (drawnMinute rng st)) :
    findDayLoop cfg rng clock data st (fuel + 1) =
      ⟨{ st with rix := st.rix + 2, cix := st.cix + 1 }, false⟩ := by
  simp [findDayLoop, hday, hpast]

/-- One step of the day search on a valid day whose drawn time is in the
future, with a present payload: the job is persisted, the entry recorded,
and the cursor advanced one day. -/
theorem findDayLoop_valid_future (cfg : DefCfg) (rng clock : Nat → Nat)
    (d : ItemData) (st : DefState) (fuel : Nat)
    (hday : some (getDay st.currentDate) ∈ cfg.scheduleDays)
    (hfut : clock st.cix < setHM st.currentDate (drawnHour cfg rng st) (drawnMinute rng st)) :
    findDayLoop cfg rng clock (some d) st (fuel + 1) =
      ⟨{ currentDate := st.currentDate + msPerDay
         scheduled := st.scheduled ++
           [⟨d.recipient, d.subject, setHM st.currentDate (drawnHour cfg rng st) (drawnMinute rng st)⟩]
         jobs := st.jobs ++
           [⟨"send email", d.recipient, d.subject, d.body, cfg.userId,
             setHM st.currentDate (drawnHour cfg rng st) (drawnMinute rng st)⟩]
         rix := st.rix + 2
         cix := st.cix + 1 }, false⟩ := by
  simp [findDayLoop, hday, hfut]

/-- One step of the day search on a valid day with a future drawn time but
an `undefined` payload: the `TypeError` aborts the loop before anything is
persisted. -/
theorem findDayLoop_valid_future_none (cfg : DefCfg) (rng clock : Nat → Nat)
    (st : DefState) (fuel : Nat)
    (hday : some (getDay st.currentDate) ∈ cfg.scheduleDays)
    (hfut : clock st.cix < setHM st.currentDate (drawnHour cfg rng st) (drawnMinute rng st)) :
    findDayLoop cfg rng clock none st (fuel + 1) =
      ⟨{ st with rix := st.rix + 2, cix := st.cix + 1 }, true⟩ := by
  simp [findDayLoop, hday, hfut]

/-- Splitting the deferred item loop at a list append. -/
theorem processSeq_append (cfg : DefCfg) (rng clock : Nat → Nat)
    (l₁ l₂ : List SequenceItem) (st : DefState) :
    processSeq cfg rng clock (l₁ ++ l₂) st =
      (let r := processSeq cfg rng clock l₁ st
       if r.err then r else processSeq cfg rng clock l₂ r.st) := by
  induction l₁ generalizing st with
  | nil => simp [processSeq]
  | cons item rest ih =>
    simp only [List.cons_append, processSeq]
    by_cases htype : item.type == "coldEmail"
    · simp only [htype, if_true]
      by_cases herr : (findDayLoop cfg rng clock item.data st 14).err
      · simp [herr]
      · simp [herr, ih]
    · simp [htype, ih]

/-- Entries only accumulate: every entry of the state the day search
reaches is an old entry or satisfies any property `P` that holds of each
entry the search can create. -/
theorem findDayLoop_preserves (cfg : DefCfg) (rng clock : Nat → Nat)
    (data : Option ItemData) (P : ScheduledEntry → Prop)
    (hP : ∀ (st' : DefState) (d : ItemData),
      some (getDay st'.currentDate) ∈ cfg.scheduleDays →
      P ⟨d.recipient, d.subject,
         setHM st'.currentDate (drawnHour cfg rng st') (drawnMinute rng st')⟩) :
    ∀ (fuel : Nat) (st : DefState), (∀ e ∈ st.scheduled, P e) →
      ∀ e ∈ (findDayLoop cfg rng clock data st fuel).st.scheduled, P e := by
  intro fuel
  induction fuel with
  | zero => intro st hst; simpa [findDayLoop] using hst
  | succ n ih =>
    intro st hst e he
    by_cases hday : some (getDay st.currentDate) ∈ cfg.scheduleDays
    · by_cases hfut : clock st.cix <
        setHM st.currentDate (drawnHour cfg rng st) (drawnMinute rng st)
      · match data with
        | none =>
          rw [findDayLoop_valid_future_none cfg rng clock st n hday hfut] at he
          exact hst e he
        | some d =>
          rw [findDayLoop_valid_future cfg rng clock d st n hday hfut] at he
          simp only [List.mem_append, List.mem_singleton] at he
          rcases he with he | he
          · exact hst e he
          · subst he; exact hP st d hday
      · rw [findDayLoop_valid_past cfg rng clock data st n hday hfut] at he
        exact hst e he
    · simp only [findDayLoop, hday, if_false] at he
      exact ih _ (by simpa using hst) e he

/-- Lifting of `findDayLoop_preserves` to the whole item loop. -/
theorem processSeq_preserves (cfg : DefCfg) (rng clock : Nat → Nat)
    (P : ScheduledEntry → Prop)
    (hP : ∀ (st' : DefState) (d : ItemData),
      some (getDay st'.currentDate) ∈ cfg.scheduleDays →
      P ⟨d.recipient, d.subject,
         setHM st'.currentDate (drawnHour cfg rng st') (drawnMinute rng st')⟩) :
    ∀ (l : List SequenceItem) (st : DefState), (∀ e ∈ st.scheduled, P e) →
      ∀ e ∈ (processSeq cfg rng clock l st).st.scheduled, P e := by
  intro l
  induction l with
  | nil => intro st hst; simpa [processSeq] using hst
  | cons item rest ih =>
    intro st hst e he
    simp only [processSeq] at he
    by_cases htype : item.type == "coldEmail"
    · simp only [htype, if_true] at he
      by_cases herr : (findDayLoop cfg rng clock item.data st 14).err
      · simp only [herr, if_true] at he
        exact findDayLoop_preserves cfg rng clock item.data P hP 14 st hst e he
      · simp only [herr, if_false] at he
        exact ih _ (findDayLoop_preserves cfg rng clock item.data P hP 14 st hst) e he
    · simp only [htype, if_false] at he
      exact ih st hst e he

/-- Appending an element above everything in a chain keeps it a chain. -/
theorem chain'_append_singleton {α : Type} {R : α → α → Prop} {l : List α} {e : α}
    (hc : List.Chain' R l) (h : ∀ x ∈ l, R x e) : List.Chain' R (l ++ [e]) := by
  rw [List.chain'_append]
  refine ⟨hc, List.chain'_singleton e, ?_⟩
  intro x hx y hy
  simp only [List.head?_cons, Option.mem_def, Option.some.injEq] at hy
  subst hy
  obtain ⟨hne, rfl⟩ := List.mem_getLast?_eq_getLast hx
  exact h _ (List.getLast_mem hne)

theorem findDayLoop_datesOK (cfg : DefCfg) (rng clock : Nat → Nat)
    (data : Option ItemData)
    (hft : cfg.fromHour ≤ cfg.toHour) (h23 : cfg.toHour ≤ 23) :
    ∀ (fuel : Nat) (st : DefState), DatesOK st →
      DatesOK (findDayLoop cfg rng clock data st fuel).st := by
  intro fuel
  induction fuel with
  | zero => intro st hst; simpa [findDayLoop] using hst
  | succ n ih =>
    intro st hst
    obtain ⟨hlt, hchain⟩ := hst
    by_cases hday : some (getDay st.currentDate) ∈ cfg.scheduleDays
    · by_cases hfut : clock st.cix <
        setHM st.currentDate (drawnHour cfg rng st) (drawnMinute rng st)
      · match data with
        | none =>
          rw [findDayLoop_valid_future_none cfg rng clock st n hday hfut]
          exact ⟨hlt, hchain⟩
        | some d =>
          rw [findDayLoop_valid_future cfg rng clock d st n hday hfut]
          have hhour : drawnHour cfg rng st ≤ 23 :=
            le_trans (drawnHour_le cfg rng st hft).2 h23
          have hday' : calDay (setHM st.currentDate (drawnHour cfg rng st)
              (drawnMinute rng st)) = calDay st.currentDate :=
            calDay_setHM _ _ _ hhour (drawnMinute_le rng st)
          constructor
          · intro e he
            simp only [List.mem_append, List.mem_singleton] at he
            rcases he with he | he
            · have := hlt e he
              rw [calDay_add_day]
              omega
            · subst he
              simp only [hday', calDay_add_day]
              omega
          · exact chain'_append_singleton hchain (fun x hx => by
              have := hlt x hx
              simpa [hday'] using this)
      · rw [findDayLoop_valid_past cfg rng clock data st n hday hfut]
        exact ⟨hlt, hchain⟩
    · simp only [findDayLoop, hday, if_false]
      refine ih _ ⟨?_, hchain⟩
      intro e he
      have := hlt e he
      simp only [calDay_add_day]
      omega

theorem processSeq_datesOK (cfg : DefCfg) (rng clock : Nat → Nat)
    (hft : cfg.fromHour ≤ cfg.toHour) (h23 : cfg.toHour ≤ 23) :
    ∀ (l : List SequenceItem) (st : DefState), DatesOK st →
      DatesOK (processSeq cfg rng clock l st).st := by
  intro l
  induction l with
  | nil => intro st hst; simpa [processSeq] using hst
  | cons item rest ih =>
    intro st hst
    simp only [processSeq]
    by_cases htype : item.type == "coldEmail"
    · simp only [htype, if_true]
      by_cases herr : (findDayLoop cfg rng clock item.data st 14).err
      · simp only [herr, if_true]
        exact findDayLoop_datesOK cfg rng clock item.data hft h23 14 st hst
      · simp only [herr, if_false]
        exact ih _ (findDayLoop_datesOK cfg rng clock item.data hft h23 14 st hst)
    · simp only [htype, if_false]
      exact ih st hst

/-! ### Shape of the immediate loop -/

theorem processImmediate_hasValid (clock : Nat → Nat) (userId : String) :
    ∀ (l : List SequenceItem) (st : ImmState),
      (processImmediate clock userId l st).hasValid =
        (st.hasValid || l.any eligibleItem) := by
  intro l
  induction l with
  | nil => intro st; simp [processImmediate]
  | cons item rest ih =>
    intro st
    by_cases htype : item.type == "coldEmail"
    · match hdata : item.data with
      | none => simp [processImmediate, htype, hdata, jsFalsy, ih, eligibleItem]
      | some d =>
        by_cases hf : jsFalsy d.recipient
        · simp [processImmediate, htype, hdata, hf, ih, eligibleItem, Option.bind]
        · simp [processImmediate, htype, hdata, hf, ih, eligibleItem, Option.bind]
    · simp [processImmediate, htype, ih, eligibleItem]

theorem processImmediate_hasMissing (clock : Nat → Nat) (userId : String) :
    ∀ (l : List SequenceItem) (st : ImmState),
      (processImmediate clock userId l st).hasMissing =
        (st.hasMissing || l.any missedItem) := by
  intro l
  induction l with
  | nil => intro st; simp [processImmediate]
  | cons item rest ih =>
    intro st
    by_cases htype : item.type == "coldEmail"
    · match hdata : item.data with
      | none => simp [processImmediate, htype, hdata, jsFalsy, ih, missedItem]
      | some d =>
        by_cases hf : jsFalsy d.recipient
        · simp [processImmediate, htype, hdata, hf, ih, missedItem, Option.bind]
        · simp [processImmediate, htype, hdata, hf, ih, missedItem, Option.bind]
    · simp [processImmediate, htype, ih, missedItem]

/-- Immediate-mode entry invariant: every entry a run of the loop records
has a send time one minute after some clock reading not before reading
`c₀`. -/
theorem processImmediate_floor (clock : Nat → Nat) (userId : String)
    (hmono : ∀ i j : Nat, i ≤ j → clock i ≤ clock j) (c₀ : Nat) :
    ∀ (l : List SequenceItem) (st : ImmState), c₀ ≤ st.cix →
      (∀ e ∈ st.scheduled, clock c₀ + msPerMinute ≤ e.scheduledFor) →
      ∀ e ∈ (processImmediate clock userId l st).scheduled,
        clock c₀ + msPerMinute ≤ e.scheduledFor := by
  intro l
  induction l with
  | nil => intro st _ hst; simpa [processImmediate] using hst
  | cons item rest ih =>
    intro st hcix hst e he
    simp only [processImmediate] at he
    by_cases htype : item.type == "coldEmail"
    · simp only [htype, if_true] at he
      match hdata : item.data with
      | none =>
        simp only [hdata] at he
        exact ih { st with hasMissing := true } hcix hst e he
      | some d =>
        simp only [hdata] at he
        by_cases hf : jsFalsy d.recipient
        · simp only [hf, if_true] at he
          exact ih { st with hasMissing := true } hcix hst e he
        · simp only [hf, if_false] at he
          refine ih _ (by simp; omega) ?_ e he
          intro x hx
          simp only [List.mem_append, List.mem_singleton] at hx
          rcases hx with hx | hx
          · exact hst x hx
          · subst hx
            have := hmono c₀ st.cix hcix
            simp only
            omega
    · simp only [htype, if_false] at he
      exact ih st hcix hst e he

/-! ### Claim theorems -/

/-- C9: for every call of the single-email scheduling operation whose
`unit` is outside `{minutes, hours, days}` (a missing unit included), no
delay is added — the computed send time equals the current wall-clock
reading — and the route still reports success with that `scheduledFor`
value instead of rejecting the unit. -/
theorem scheduleEmail_unknown_unit (now : Nat) (req : SingleRequest) (userId : String)
    (hunit : req.unit ≠ some "minutes" ∧ req.unit ≠ some "hours" ∧ req.unit ≠ some "days") :
    computeSendTime now req.delay req.unit = now ∧
    scheduleEmailRoute true true now req userId =
      .ok now ⟨"send email", req.toAddr, req.subject, req.body, userId, now⟩ := by
  obtain ⟨h1, h2, h3⟩ := hunit
  have hc : computeSendTime now req.delay req.unit = now := by
    simp [computeSendTime, h1, h2, h3]
  exact ⟨hc, by simp [scheduleEmailRoute, hc]⟩

/-- Witness for C9: a `weeks` unit adds no delay and still succeeds. -/
theorem scheduleEmail_unknown_unit_witness :
    computeSendTime 1700000000000 5 (some "weeks") = 1700000000000 ∧
    scheduleEmailRoute true true 1700000000000
        ⟨some "a@b.c", some "s", some "b", 5, some "weeks"⟩ "u7" =
      .ok 1700000000000 ⟨"send email", some "a@b.c", some "s", some "b", "u7", 1700000000000⟩ :=
  scheduleEmail_unknown_unit 1700000000000
    ⟨some "a@b.c", some "s", some "b", 5, some "weeks"⟩ "u7"
    ⟨by decide, by decide, by decide⟩

/-- C8: one execution of the job-health monitor sweep clears `lockedAt`
for exactly the jobs whose `lockedAt` is older than five minutes at sweep
time and returns every other job unchanged in every field — the sweep is
the per-job map `unlockSpecClaim`, which unlocks a job locked more than
five minutes ago (e.g. six minutes) and leaves a more recently locked job
(e.g. four minutes) untouched.  The hypothesis only places the sweep at
least five minutes past the epoch, true of any real clock reading. -/
theorem monitor_stale_lease (now : Nat) (jobs : List StoredJob)
    (hnow : 5 * 60 * 1000 ≤ now) :
    monitorSweep now jobs = jobs.map (unlockSpecClaim now) := by
  unfold monitorSweep
  by_cases hl : 0 < jobs.countP (fun j => j.lockedAt.isSome)
  · simp only [hl, if_true]
    refine List.map_congr_left ?_
    intro j _
    cases hj : j.lockedAt with
    | none => simp [sweepJob, unlockSpecClaim, hj]
    | some t =>
      by_cases hstale : t + 5 * 60 * 1000 < now
      · simp [sweepJob, unlockSpecClaim, hj, hstale, Nat.lt_sub_iff_add_lt.mpr hstale]
      · have : ¬ t < now - 5 * 60 * 1000 := by omega
        simp [sweepJob, unlockSpecClaim, hj, hstale, this]
  · simp only [hl, if_false]
    have hz : jobs.countP (fun j => j.lockedAt.isSome) = 0 := by omega
    rw [List.countP_eq_zero] at hz
    have hid : ∀ j ∈ jobs, j = unlockSpecClaim now j := by
      intro j hj
      have hnone := hz j hj
      cases hjl : j.lockedAt with
      | none => simp [unlockSpecClaim, hjl]
      | some t => rw [hjl] at hnone; simp at hnone
    calc jobs = jobs.map id := by simp
      _ = jobs.map (unlockSpecClaim now) := List.map_congr_left hid

/-- Witness for C8: at sweep time 1000000, a job locked six minutes ago
(at 640000) and one locked four minutes ago (at 760000). -/
theorem monitor_stale_lease_witness :
    monitorSweep 1000000
        [⟨"send email", some "a", "u", some 5, some 640000⟩,
         ⟨"send email", some "b", "u", some 5, some 760000⟩] =
      [⟨"send email", some "a", "u", some 5, some 640000⟩,
       ⟨"send email", some "b", "u", some 5, some 760000⟩].map (unlockSpecClaim 1000000) :=
  monitor_stale_lease 1000000
    [⟨"send email", some "a", "u", some 5, some 640000⟩,
     ⟨"send email", some "b", "u", some 5, some 760000⟩] (by decide)

/-- C6: an immediate-mode (`sendNow = true`) call in which no eligible
item exists — every `coldEmail` item has a falsy `item.data?.recipient` —
fails as a whole with the 400 response, and its message distinguishes the
case with at least one `coldEmail` item (all skipped for missing
recipients) from the case with no `coldEmail` item at all. -/
theorem immediate_no_eligible_badRequest (opts : SchedulingOptions) (userId : String)
    (rng clock : Nat → Nat) (sequence : List SequenceItem)
    (hzero : ∀ i ∈ sequence, i.type = "coldEmail" →
      jsFalsy (i.data.bind ItemData.recipient) = true) :
    ∃ msg, (scheduleSequenceRoute true opts userId rng clock sequence).1 = .badRequest msg ∧
      (msg = msgMissingRecipients ↔ ∃ i ∈ sequence, i.type = "coldEmail") ∧
      msgMissingRecipients ≠ msgNoValidNodes := by
  have hval : (processImmediate clock userId sequence initImmState).hasValid = false := by
    rw [processImmediate_hasValid]
    simp only [initImmState, Bool.false_or]
    rw [List.any_eq_false]
    intro i hi
    unfold eligibleItem
    by_cases ht : i.type == "coldEmail"
    · simp [ht, hzero i hi (by simpa using ht)]
    · simp [ht]
  have hmiss : (processImmediate clock userId sequence initImmState).hasMissing =
      sequence.any missedItem := by
    rw [processImmediate_hasMissing]
    simp [initImmState]
  refine ⟨if (processImmediate clock userId sequence initImmState).hasMissing
      then msgMissingRecipients else msgNoValidNodes, ?_, ?_, by decide⟩
  · simp [scheduleSequenceRoute, scheduleSequenceImmediate, hval]
  · by_cases hm : (processImmediate clock userId sequence initImmState).hasMissing
    · simp only [hm, if_true, true_iff]
      rw [hmiss, List.any_eq_true] at hm
      obtain ⟨i, hi, hpi⟩ := hm
      unfold missedItem at hpi
      exact ⟨i, hi, by simpa using (Bool.and_elim_left hpi)⟩
    · simp only [hm, if_false]
      constructor
      · intro habs
        exact absurd habs (by decide)
      · rintro ⟨i, hi, hti⟩
        refine absurd ?_ hm
        rw [hmiss, List.any_eq_true]
        refine ⟨i, hi, ?_⟩
        unfold missedItem
        simp [hti, hzero i hi hti]

/-- Witness for C6: a single `coldEmail` item with `undefined` data gives
the missing-recipient message. -/
theorem immediate_no_eligible_badRequest_witness :
    ∃ msg, (scheduleSequenceRoute true ⟨0, "09:00", "17:00", ["monday"]⟩ "u"
        (fun _ => 0) (fun _ => 0) [⟨"i", "coldEmail", none⟩]).1 = .badRequest msg ∧
      (msg = msgMissingRecipients ↔
        ∃ i ∈ [(⟨"i", "coldEmail", none⟩ : SequenceItem)], i.type = "coldEmail") ∧
      msgMissingRecipients ≠ msgNoValidNodes :=
  immediate_no_eligible_badRequest ⟨0, "09:00", "17:00", ["monday"]⟩ "u"
    (fun _ => 0) (fun _ => 0) [⟨"i", "coldEmail", none⟩]
    (by intro i hi _; simp at hi; subst hi; rfl)

/-- C7: in an immediate-mode call under a monotone wall clock, every
scheduled entry's send time is strictly after the request's wall-clock
reading (the clock value `clock 0` at the start of the request) and
exceeds it by at least one minute. -/
theorem immediate_floor (userId : String) (clock : Nat → Nat)
    (sequence : List SequenceItem)
    (hmono : ∀ i j : Nat, i ≤ j → clock i ≤ clock j) :
    ∀ e ∈ (processImmediate clock userId sequence initImmState).scheduled,
      clock 0 < e.scheduledFor ∧ clock 0 + msPerMinute ≤ e.scheduledFor := by
  intro e he
  have h := processImmediate_floor clock userId hmono 0 sequence initImmState
    (by simp [initImmState]) (by simp [initImmState]) e he
  refine ⟨?_, h⟩
  have : 0 < msPerMinute := by decide
  omega

/-- Witness for C7: a constant clock at 1000 schedules the single item at
61000, one minute past the request time. -/
theorem immediate_floor_witness :
    (1000 : Nat) < 61000 ∧ (1000 : Nat) + msPerMinute ≤ 61000 :=
  immediate_floor "u" (fun _ => 1000)
    [⟨"i", "coldEmail", some ⟨some "a", some "s", some "b"⟩⟩]
    (fun _ _ _ => le_refl 1000)
    ⟨some "a", some "s", 61000⟩ (by decide)

/-- C4: in deferred mode, for every scheduled item and every outcome of
the random draw, with `fromHour ≤ toHour` parsed from `fromTime` and
`toTime` (and `toTime` a well-formed hour of day, so `toHour ≤ 23`), the
hour of every resulting `scheduledFor` lies in `[fromHour, toHour]`
inclusive and its minute lies in `[0, 59]`. -/
theorem deferred_window_containment (opts : SchedulingOptions) (userId : String)
    (rng clock : Nat → Nat) (sequence : List SequenceItem)
    (hft : parseHour opts.fromTime ≤ parseHour opts.toTime)
    (h23 : parseHour opts.toTime ≤ 23) :
    ∀ e ∈ (runDeferred opts userId rng clock sequence).st.scheduled,
      parseHour opts.fromTime ≤ hourOfDay e.scheduledFor ∧
      hourOfDay e.scheduledFor ≤ parseHour opts.toTime ∧
      minuteOfHour e.scheduledFor ≤ 59 := by
  intro e he
  unfold runDeferred at he
  have hft' : (mkCfg opts userId).fromHour ≤ (mkCfg opts userId).toHour := hft
  have h23' : (mkCfg opts userId).toHour ≤ 23 := h23
  refine processSeq_preserves (mkCfg opts userId) rng clock
    (fun e => parseHour opts.fromTime ≤ hourOfDay e.scheduledFor ∧
      hourOfDay e.scheduledFor ≤ parseHour opts.toTime ∧
      minuteOfHour e.scheduledFor ≤ 59) ?_ sequence _ (by simp [initDefState]) e he
  intro st' d _
  have hb := drawnHour_le (mkCfg opts userId) rng st' hft'
  have hm := drawnMinute_le rng st'
  have hh23 : drawnHour (mkCfg opts userId) rng st' ≤ 23 := le_trans hb.2 h23'
  have hhour := hourOfDay_setHM st'.currentDate _ _ hh23 hm
  have hmin := minuteOfHour_setHM st'.currentDate _ _ hh23 hm
  exact ⟨by rw [hhour]; exact hb.1, by rw [hhour]; exact hb.2, by rw [hmin]; exact hm⟩

/-- Witness for C4: window `09:00`–`17:00`, draw stream 5, giving the
entry at hour 14, minute 5 of the start Monday (timestamp 396300000). -/
theorem deferred_window_containment_witness :
    parseHour "09:00" ≤ hourOfDay 396300000 ∧
    hourOfDay 396300000 ≤ parseHour "17:00" ∧
    minuteOfHour 396300000 ≤ 59 :=
  deferred_window_containment ⟨4 * msPerDay, "09:00", "17:00", ["monday"]⟩ "u"
    (fun _ => 5) (fun _ => 0)
    [⟨"i", "coldEmail", some ⟨some "a", some "s", some "b"⟩⟩]
    (by decide) (by decide) ⟨some "a", some "s", 396300000⟩ (by decide)

/-- C5: in deferred mode (with well-formed hour bounds), the weekday of
every entry's `scheduledFor` is a member of the caller's allowed days
after the name-to-number mapping; no scheduled send falls on a disallowed
weekday. -/
theorem deferred_eligible_days (opts : SchedulingOptions) (userId : String)
    (rng clock : Nat → Nat) (sequence : List SequenceItem)
    (hft : parseHour opts.fromTime ≤ parseHour opts.toTime)
    (h23 : parseHour opts.toTime ≤ 23) :
    ∀ e ∈ (runDeferred opts userId rng clock sequence).st.scheduled,
      some (getDay e.scheduledFor) ∈ opts.days.map (fun d => dayMap (jsToLower d)) := by
  intro e he
  unfold runDeferred at he
  have hft' : (mkCfg opts userId).fromHour ≤ (mkCfg opts userId).toHour := hft
  have h23' : (mkCfg opts userId).toHour ≤ 23 := h23
  have hdays : (mkCfg opts userId).scheduleDays = opts.days.map (fun d => dayMap (jsToLower d)) := rfl
  rw [← hdays]
  refine processSeq_preserves (mkCfg opts userId) rng clock
    (fun e => some (getDay e.scheduledFor) ∈ (mkCfg opts userId).scheduleDays)
    ?_ sequence _ (by simp [initDefState]) e he
  intro st' d hday
  have hb := drawnHour_le (mkCfg opts userId) rng st' hft'
  have hm := drawnMinute_le rng st'
  have hh23 : drawnHour (mkCfg opts userId) rng st' ≤ 23 := le_trans hb.2 h23'
  have hgd := getDay_setHM st'.currentDate _ _ hh23 hm
  simpa [hgd] using hday

/-- Witness for C5: the single entry of a Monday-only window (timestamp
396300000) lands on a Monday. -/
theorem deferred_eligible_days_witness :
    some (getDay 396300000) ∈ ["monday"].map (fun d => dayMap (jsToLower d)) :=
  deferred_eligible_days ⟨4 * msPerDay, "09:00", "17:00", ["monday"]⟩ "u"
    (fun _ => 5) (fun _ => 0)
    [⟨"i", "coldEmail", some ⟨some "a", some "s", some "b"⟩⟩]
    (by decide) (by decide) ⟨some "a", some "s", 396300000⟩ (by decide)

/-- C1: for a deferred-mode call with well-formed hour bounds in which
every `coldEmail` item is actually scheduled (each finds an eligible day
and each drawn send time lies in the future — equivalently, the result has
as many entries as there are `coldEmail` items), the `scheduledFor`
timestamps have strictly increasing calendar days, in input order: each
later entry's date is at least one day after the previous entry's. -/
theorem deferred_monotone_cursor (opts : SchedulingOptions) (userId : String)
    (rng clock : Nat → Nat) (sequence : List SequenceItem)
    (hft : parseHour opts.fromTime ≤ parseHour opts.toTime)
    (h23 : parseHour opts.toTime ≤ 23)
    (_hall : (runDeferred opts userId rng clock sequence).st.scheduled.length =
      (sequence.filter (fun i => i.type == "coldEmail")).length) :
    List.Chain' (fun a b => calDay a.scheduledFor < calDay b.scheduledFor)
      (runDeferred opts userId rng clock sequence).st.scheduled := by
  have hft' : (mkCfg opts userId).fromHour ≤ (mkCfg opts userId).toHour := hft
  have h23' : (mkCfg opts userId).toHour ≤ 23 := h23
  have h := processSeq_datesOK (mkCfg opts userId) rng clock hft' h23' sequence
    (initDefState opts.startDate) (by constructor <;> simp [initDefState, DatesOK])
  exact h.2

/-- Witness for C1: three items, Mondays only, starting on a Tuesday — all
three are scheduled, on three consecutive Mondays. -/
theorem deferred_monotone_cursor_witness :
    List.Chain' (fun a b => calDay a.scheduledFor < calDay b.scheduledFor)
      (runDeferred ⟨5 * msPerDay, "09:00", "09:00", ["monday"]⟩ "u"
        (fun _ => 0) (fun _ => 0)
        [⟨"i1", "coldEmail", some ⟨some "a", some "s", some "b"⟩⟩,
         ⟨"i2", "coldEmail", some ⟨some "c", some "s", some "b"⟩⟩,
         ⟨"i3", "coldEmail", some ⟨some "e", some "s", some "b"⟩⟩]).st.scheduled :=
  deferred_monotone_cursor ⟨5 * msPerDay, "09:00", "09:00", ["monday"]⟩ "u"
    (fun _ => 0) (fun _ => 0)
    [⟨"i1", "coldEmail", some ⟨some "a", some "s", some "b"⟩⟩,
     ⟨"i2", "coldEmail", some ⟨some "c", some "s", some "b"⟩⟩,
     ⟨"i3", "coldEmail", some ⟨some "e", some "s", some "b"⟩⟩]
    (by decide) (by decide) (by decide)

/-- Counterexample to C2 as stated: start on a Monday with Mondays
allowed, so the first eligible day is found immediately, and a wall clock
far in the future makes the drawn send time lie in the past.  The item is
indeed dropped, but the day cursor is NOT advanced by one day — it still
sits on the start date. -/
theorem deferred_past_draw_counterexample :
    (runDeferred ⟨4 * msPerDay, "09:00", "09:00", ["monday"]⟩ "u" (fun _ => 0)
        (fun _ => 1000000000000)
        [⟨"i", "coldEmail", some ⟨some "a", some "s", some "b"⟩⟩]).st.scheduled = [] ∧
    (runDeferred ⟨4 * msPerDay, "09:00", "09:00", ["monday"]⟩ "u" (fun _ => 0)
        (fun _ => 1000000000000)
        [⟨"i", "coldEmail", some ⟨some "a", some "s", some "b"⟩⟩]).st.currentDate =
      4 * msPerDay ∧
    4 * msPerDay ≠ 4 * msPerDay + msPerDay := by
  refine ⟨by decide, by decide, by decide⟩

/-- C2 amended: in deferred mode, a `coldEmail` item whose eligible day is
found (here: the cursor already sits on an allowed weekday) but whose
drawn send time is not in the future is not scheduled, and the day cursor
is NOT advanced — the remaining items are processed from the very same
`currentDate`, with only the random and clock stream positions moved on. -/
theorem deferred_past_draw_keeps_cursor (cfg : DefCfg) (rng clock : Nat → Nat)
    (item : SequenceItem) (rest : List SequenceItem) (st : DefState)
    (htype : item.type = "coldEmail")
    (hday : some (getDay st.currentDate) ∈ cfg.scheduleDays)
    (hpast : setHM st.currentDate (drawnHour cfg rng st) (drawnMinute rng st) ≤
      clock st.cix) :
    processSeq cfg rng clock (item :: rest) st =
      processSeq cfg rng clock rest { st with rix := st.rix + 2, cix := st.cix + 1 } := by
  have h14 : findDayLoop cfg rng clock item.data st 14 =
      ⟨{ st with rix := st.rix + 2, cix := st.cix + 1 }, false⟩ :=
    findDayLoop_valid_past cfg rng clock item.data st 13 hday (by omega)
  simp [processSeq, htype, h14]

/-- Witness for the amended C2: the dropped item leaves the next item the
same Monday cursor. -/
theorem deferred_past_draw_keeps_cursor_witness :
    processSeq ⟨[some 1], 9, 9, "u"⟩ (fun _ => 0) (fun _ => 1000000000000)
        [⟨"i", "coldEmail", some ⟨some "a", some "s", some "b"⟩⟩]
        ⟨4 * msPerDay, [], [], 0, 0⟩ =
      processSeq ⟨[some 1], 9, 9, "u"⟩ (fun _ => 0) (fun _ => 1000000000000) []
        ⟨4 * msPerDay, [], [], 2, 1⟩ :=
  deferred_past_draw_keeps_cursor ⟨[some 1], 9, 9, "u"⟩ (fun _ => 0)
    (fun _ => 1000000000000) ⟨"i", "coldEmail", some ⟨some "a", some "s", some "b"⟩⟩ []
    ⟨4 * msPerDay, [], [], 0, 0⟩ rfl (by decide) (by decide)

/-- Counterexample to C3 as stated: in deferred mode a `coldEmail` item
whose payload lacks a recipient is NOT silently skipped — with an eligible
day and a future drawn time, an entry (with no email) appears in
`scheduledEmails` and a job is persisted for it. -/
theorem deferred_missing_recipient_counterexample :
    (runDeferred ⟨4 * msPerDay, "09:00", "09:00", ["monday"]⟩ "u" (fun _ => 0)
        (fun _ => 0)
        [⟨"i", "coldEmail", some ⟨none, some "s", some "b"⟩⟩]).st.scheduled ≠ [] ∧
    (runDeferred ⟨4 * msPerDay, "09:00", "09:00", ["monday"]⟩ "u" (fun _ => 0)
        (fun _ => 0)
        [⟨"i", "coldEmail", some ⟨none, some "s", some "b"⟩⟩]).st.jobs ≠ [] := by
  refine ⟨by decide, by decide⟩

/-- C3 amended: a `coldEmail` item whose payload lacks a recipient is
handled asymmetrically, but not by skipping in deferred mode: in deferred
mode (eligible day found, drawn time in the future) the item IS scheduled —
a job with an undefined recipient is persisted and an entry with no email
appears in `scheduledEmails` — while in immediate mode the item is
recorded as a missing-recipient skip and contributes nothing else. -/
theorem deferred_missing_recipient_scheduled (cfg : DefCfg) (rng clock clock2 : Nat → Nat)
    (d : ItemData) (st : DefState) (fuel : Nat) (userId idStr : String)
    (rest : List SequenceItem) (ist : ImmState)
    (hrec : d.recipient = none)
    (hday : some (getDay st.currentDate) ∈ cfg.scheduleDays)
    (hfut : clock st.cix <
      setHM st.currentDate (drawnHour cfg rng st) (drawnMinute rng st)) :
    (findDayLoop cfg rng clock (some d) st (fuel + 1)).st.scheduled =
      st.scheduled ++
        [⟨none, d.subject, setHM st.currentDate (drawnHour cfg rng st) (drawnMinute rng st)⟩] ∧
    (findDayLoop cfg rng clock (some d) st (fuel + 1)).st.jobs =
      st.jobs ++
        [⟨"send email", none, d.subject, d.body, cfg.userId,
          setHM st.currentDate (drawnHour cfg rng st) (drawnMinute rng st)⟩] ∧
    processImmediate clock2 userId (⟨idStr, "coldEmail", some d⟩ :: rest) ist =
      processImmediate clock2 userId rest { ist with hasMissing := true } := by
  have h := findDayLoop_valid_future cfg rng clock d st fuel hday hfut
  refine ⟨by rw [h, hrec], by rw [h, hrec], ?_⟩
  simp [processImmediate, jsFalsy, hrec]

/-- Witness for the amended C3: a recipient-less payload on a Monday
start. -/
theorem deferred_missing_recipient_scheduled_witness :
    (findDayLoop ⟨[some 1], 9, 9, "u"⟩ (fun _ => 0) (fun _ => 0)
        (some ⟨none, some "s", some "b"⟩) ⟨4 * msPerDay, [], [], 0, 0⟩ (13 + 1)).st.scheduled =
      [] ++ [⟨none, some "s", setHM (4 * msPerDay)
        (drawnHour ⟨[some 1], 9, 9, "u"⟩ (fun _ => 0) ⟨4 * msPerDay, [], [], 0, 0⟩)
        (drawnMinute (fun _ => 0) ⟨4 * msPerDay, [], [], 0, 0⟩)⟩] ∧
    (findDayLoop ⟨[some 1], 9, 9, "u"⟩ (fun _ => 0) (fun _ => 0)
        (some ⟨none, some "s", some "b"⟩) ⟨4 * msPerDay, [], [], 0, 0⟩ (13 + 1)).st.jobs =
      [] ++ [⟨"send email", none, some "s", some "b", "u", setHM (4 * msPerDay)
        (drawnHour ⟨[some 1], 9, 9, "u"⟩ (fun _ => 0) ⟨4 * msPerDay, [], [], 0, 0⟩)
        (drawnMinute (fun _ => 0) ⟨4 * msPerDay, [], [], 0, 0⟩)⟩] ∧
    processImmediate (fun _ => 0) "u"
        (⟨"i", "coldEmail", some ⟨none, some "s", some "b"⟩⟩ ::
          ([] : List SequenceItem)) initImmState =
      processImmediate (fun _ => 0) "u" [] { initImmState with hasMissing := true } :=
  deferred_missing_recipient_scheduled ⟨[some 1], 9, 9, "u"⟩ (fun _ => 0) (fun _ => 0)
    (fun _ => 0) ⟨none, some "s", some "b"⟩ ⟨4 * msPerDay, [], [], 0, 0⟩ 13 "u" "i" []
    initImmState rfl (by decide) (by decide)

/-- C10: in deferred mode, a `coldEmail` item with no `data` object at all
makes the read of its recipient throw (once an eligible day is found and
the drawn time is in the future, which is when the loop performs the
read); the whole request fails through the route's `catch` with the 500
response `Failed to schedule sequence`, while the jobs persisted for the
earlier items of the same sequence remain in the store — the operation is
not atomic on this failure. -/
theorem deferred_undefined_data_500 (opts : SchedulingOptions) (userId : String)
    (rng clock : Nat → Nat) (pre post : List SequenceItem) (idStr : String)
    (hok : (runDeferred opts userId rng clock pre).err = false)
    (hday : some (getDay (runDeferred opts userId rng clock pre).st.currentDate) ∈
      (mkCfg opts userId).scheduleDays)
    (hfut : clock (runDeferred opts userId rng clock pre).st.cix <
      setHM (runDeferred opts userId rng clock pre).st.currentDate
        (drawnHour (mkCfg opts userId) rng (runDeferred opts userId rng clock pre).st)
        (drawnMinute rng (runDeferred opts userId rng clock pre).st)) :
    scheduleSequenceDeferred opts userId rng clock
        (pre ++ ⟨idStr, "coldEmail", none⟩ :: post) =
      (.serverError "Failed to schedule sequence",
       (runDeferred opts userId rng clock pre).st.jobs) := by
  unfold scheduleSequenceDeferred
  unfold runDeferred at hok hday hfut ⊢
  rw [processSeq_append]
  simp only [hok, if_false]
  have h14 := findDayLoop_valid_future_none (mkCfg opts userId) rng clock
    (processSeq (mkCfg opts userId) rng clock pre (initDefState opts.startDate)).st 13
    hday hfut
  simp [processSeq, h14]

/-- Witness for C10: one well-formed item scheduled, then an item with
`undefined` data; the response is the 500 and the first job stays
persisted. -/
theorem deferred_undefined_data_500_witness :
    scheduleSequenceDeferred ⟨4 * msPerDay, "09:00", "09:00", ["monday", "tuesday"]⟩ "u"
        (fun _ => 0) (fun _ => 0)
        ([⟨"i1", "coldEmail", some ⟨some "a", some "s", some "b"⟩⟩] ++
          ⟨"i2", "coldEmail", none⟩ :: []) =
      (.serverError "Failed to schedule sequence",
       (runDeferred ⟨4 * msPerDay, "09:00", "09:00", ["monday", "tuesday"]⟩ "u"
         (fun _ => 0) (fun _ => 0)
         [⟨"i1", "coldEmail", some ⟨some "a", some "s", some "b"⟩⟩]).st.jobs) :=
  deferred_undefined_data_500 ⟨4 * msPerDay, "09:00", "09:00", ["monday", "tuesday"]⟩ "u"
    (fun _ => 0) (fun _ => 0)
    [⟨"i1", "coldEmail", some ⟨some "a", some "s", some "b"⟩⟩] [] "i2"
    (by decide) (by decide) (by decide)
